import Mathlib

/-!
Verification of the timeline/state core of the griswold-animator repository.

All JavaScript numbers are modelled as rationals (ℚ); strings as Lean
strings.  Functions are translated from the TypeScript source:
  - the interpolation engine and project store from src/store (part_000),
  - the cue sampler from the toolbar component (part_002),
  - the file migration from the types module (main.tsx, second document),
  - the polygon geometry from CanvasPanel.tsx.
The JavaScript engine's stable `Array.prototype.sort` is modelled by
`List.insertionSort` (a stable sort).
-/

namespace Griswold

/-- Interpolation mode of an actor, from the types module. -/
inductive InterpolationType
  | step
  | linear
deriving DecidableEq, Repr

/-- A keyframe: a (time, value) anchor point. -/
structure KeyFrame where
  time : ℚ
  value : ℚ
deriving DecidableEq, Repr

/-- Tagged polygon union from the types module: rectangle or arbitrary
point list. -/
inductive Polygon
  | rectangle (x y width height : ℚ)
  | polygon (points : List (ℚ × ℚ))
deriving DecidableEq, Repr

/-- A shape: geometry plus an off/on color pair. -/
structure Shape where
  geometry : Polygon
  offColor : String
  onColor : String
deriving DecidableEq, Repr

/-- An actor (current schema, with a list of shapes). -/
structure Actor where
  id : String
  label : String
  shapes : List Shape
  keyframes : List KeyFrame
  interpolation : InterpolationType
deriving DecidableEq, Repr

/-- A canvas background image record. -/
structure CanvasBackground where
  id : String
  dataUrl : String
  x : ℚ
  y : ℚ
  width : ℚ
  height : ℚ
  zIndex : ℚ
deriving DecidableEq, Repr

/-- Project metadata. -/
structure Project where
  name : String
  songFilename : String
  canvasWidth : ℚ
  canvasHeight : ℚ
deriving DecidableEq, Repr

/-- Playback state (untracked by history). -/
structure PlaybackState where
  currentTime : ℚ
  isPlaying : Bool
  duration : ℚ
deriving DecidableEq, Repr

/-- The canvas tool selector of the UI state. -/
inductive Tool
  | select
  | rectangle
  | polygon
deriving DecidableEq, Repr

/-- UI state (untracked by history), as initialised in the store. -/
structure UIState where
  selectedActorId : Option String
  selectedBackgroundId : Option String
  zoom : ℚ
  scrollX : ℚ
  scrollY : ℚ
  tool : Tool
deriving DecidableEq, Repr

/-- The full store state of useProjectStore: tracked slice (project,
actors, backgrounds) plus untracked playback / UI / audio fields.  The
opaque runtime audio objects are modelled by presence flags. -/
structure ProjectState where
  project : Project
  actors : List Actor
  backgrounds : List CanvasBackground
  playback : PlaybackState
  ui : UIState
  audioBuffer : Option Unit
  audioFile : Option Unit
deriving DecidableEq, Repr

/-! ### Interpolation engine (getActorValueAtTime, src/store part_000) -/

/-- The single pass of the source's for-loop over the keyframes,
accumulating the pair (before, after): `before` is overwritten by every
keyframe with time ≤ query time (last such wins), `after` is set by the
first keyframe with time ≥ query time. -/
def findSurrounding (time : ℚ) (kfs : List KeyFrame) :
    Option KeyFrame × Option KeyFrame :=
  kfs.foldl
    (fun p kf =>
      (if kf.time ≤ time then some kf else p.1,
       if time ≤ kf.time ∧ p.2 = none then some kf else p.2))
    (none, none)

/-- getActorValueAtTime from the store: value of an actor's state curve
at a query time. -/
def getActorValueAtTime (actor : Actor) (time : ℚ) : ℚ :=
  if actor.keyframes.isEmpty then 0
  else
    match (findSurrounding time actor.keyframes).1,
        (findSurrounding time actor.keyframes).2 with
    | none, some a => a.value
    | none, none => 0
    | some b, none => b.value
    | some b, some a =>
      if b.time = a.time then b.value
      else
        match actor.interpolation with
        | InterpolationType.linear =>
          b.value + (time - b.time) / (a.time - b.time) * (a.value - b.value)
        | InterpolationType.step => b.value

/-- The keyframe list invariant: ascending times, hence unique times. -/
def SortedTimes (kfs : List KeyFrame) : Prop :=
  List.Pairwise (fun k1 k2 => k1.time < k2.time) kfs

instance : DecidablePred SortedTimes := fun kfs =>
  inferInstanceAs (Decidable (List.Pairwise _ kfs))

/-- Keyframe of greatest time among those with time ≤ t (spec's
"before"), picked by maximising time over the filtered list. -/
def greatestAtMost (kfs : List KeyFrame) (t : ℚ) : Option KeyFrame :=
  (kfs.filter fun k => decide (k.time ≤ t)).foldl
    (fun acc k =>
      match acc with
      | none => some k
      | some m => if m.time < k.time then some k else acc)
    none

/-- Keyframe of least time among those with time ≥ t (spec's "after"),
picked by minimising time over the filtered list. -/
def leastAtLeast (kfs : List KeyFrame) (t : ℚ) : Option KeyFrame :=
  (kfs.filter fun k => decide (t ≤ k.time)).foldl
    (fun acc k =>
      match acc with
      | none => some k
      | some m => if k.time < m.time then some k else acc)
    none

/-- The reference definition of the interpolation engine, written from
the claim: 0 on an empty list; otherwise case analysis on the greatest
keyframe at time ≤ t and the least keyframe at time ≥ t.  (For a
nonempty list the two cannot both be absent; that case returns 0.) -/
def refValueAt (actor : Actor) (t : ℚ) : ℚ :=
  if actor.keyframes.isEmpty then 0
  else
    match greatestAtMost actor.keyframes t, leastAtLeast actor.keyframes t with
    | none, none => 0
    | none, some a => a.value
    | some b, none => b.value
    | some b, some a =>
      if b.time = a.time then b.value
      else
        match actor.interpolation with
        | InterpolationType.linear =>
          b.value + (t - b.time) / (a.time - b.time) * (a.value - b.value)
        | InterpolationType.step => b.value

/-! ### Cue sampler (generateCues, Toolbar component part_002) -/

/-- An exported cue: time, actor label, state value. -/
structure Cue where
  t : ℚ
  id : String
  state : ℚ
deriving DecidableEq, Repr

/-- The comparator of the final cue sort: ascending time, ties broken by
lexicographic id, from the source comparator
`a.t - b.t || a.id.localeCompare(b.id)` (localeCompare modelled as the
lexicographic string order). -/
def cueLE (a b : Cue) : Prop :=
  a.t < b.t ∨ (a.t = b.t ∧ a.id ≤ b.id)

instance : DecidableRel cueLE := fun a b =>
  inferInstanceAs (Decidable (a.t < b.t ∨ (a.t = b.t ∧ a.id ≤ b.id)))

instance : IsTotal Cue cueLE := by
  constructor
  intro a b
  rcases lt_trichotomy a.t b.t with h | h | h
  · exact Or.inl (Or.inl h)
  · rcases le_total a.id b.id with h2 | h2
    · exact Or.inl (Or.inr ⟨h, h2⟩)
    · exact Or.inr (Or.inr ⟨h.symm, h2⟩)
  · exact Or.inr (Or.inl h)

instance : IsTrans Cue cueLE := by
  constructor
  intro a b c hab hbc
  rcases hab with h1 | ⟨h1, h1'⟩
  · rcases hbc with h2 | ⟨h2, _⟩
    · exact Or.inl (h1.trans h2)
    · exact Or.inl (h2 ▸ h1)
  · rcases hbc with h2 | ⟨h2, h2'⟩
    · exact Or.inl (h1 ▸ h2)
    · exact Or.inr ⟨h1.trans h2, h1'.trans h2'⟩

/-- `Math.round(x * 1000) / 1000`: rounding to 3 decimal places.
JavaScript Math.round is floor(x + 1/2) (half toward +∞). -/
def round3 (x : ℚ) : ℚ :=
  ((⌊x * 1000 + 1 / 2⌋ : ℤ) : ℚ) / 1000

/-- The sample times of the loop `for (let t = 0; t <= duration; t +=
tickRate)`: the multiples of tickRate up to duration.  For tickRate ≤ 0
with duration ≥ 0 the source loop does not terminate; the model returns
the empty list there (and for duration < 0 the loop body never runs). -/
def sampleTimes (duration tickRate : ℚ) : List ℚ :=
  if 0 < tickRate ∧ 0 ≤ duration then
    (List.range (⌊duration / tickRate⌋.toNat + 1)).map fun k => (k : ℚ) * tickRate
  else []

/-- generateCues from the Toolbar component: keyframe-only cues when
duration is 0, sampled cues otherwise, then a stable sort by (t, id). -/
def generateCues (actors : List Actor) (duration tickRate : ℚ) : List Cue :=
  let cues :=
    if duration = 0 then
      actors.flatMap fun actor =>
        ⟨0, actor.label, getActorValueAtTime actor 0⟩ ::
          actor.keyframes.map fun kf => ⟨kf.time, actor.label, kf.value⟩
    else
      (sampleTimes duration tickRate).flatMap fun t =>
        actors.map fun actor =>
          ⟨round3 t, actor.label, round3 (getActorValueAtTime actor t)⟩
  List.insertionSort cueLE cues

/-! ### Project store actions (part_000) -/

/-- Keyframe comparator of the source's re-sort
`.sort((x, y) => x.time - y.time)`: ascending time. -/
def timeLE (a b : KeyFrame) : Prop :=
  a.time ≤ b.time

instance : DecidableRel timeLE := fun a b =>
  inferInstanceAs (Decidable (a.time ≤ b.time))

instance : IsTotal KeyFrame timeLE :=
  ⟨fun a b => le_total a.time b.time⟩

instance : IsTrans KeyFrame timeLE :=
  ⟨fun _ _ _ h1 h2 => le_trans h1 h2⟩

instance : IsAntisymm KeyFrame (fun k1 k2 : KeyFrame => k1.time < k2.time) :=
  ⟨fun _ _ h1 h2 => absurd h2 (lt_asymm h1)⟩

/-- The keyframe-list update of the store's addKeyframe action: drop any
keyframe at exactly the new time, append the new one, re-sort ascending
by time. -/
def addKeyframeList (kfs : List KeyFrame) (kf : KeyFrame) : List KeyFrame :=
  List.insertionSort timeLE
    ((kfs.filter fun k => decide ¬(k.time = kf.time)) ++ [kf])

/-- The store's addKeyframe action, mapped over the actor list. -/
def addKeyframe (s : ProjectState) (actorId : String) (kf : KeyFrame) :
    ProjectState :=
  { s with
    actors := s.actors.map fun a =>
      if a.id = actorId then { a with keyframes := addKeyframeList a.keyframes kf }
      else a }

/-- The store's removeActor action: filter the actor out and clear the
selection if it pointed at this id. -/
def removeActor (s : ProjectState) (id : String) : ProjectState :=
  { s with
    actors := s.actors.filter fun a => decide ¬(a.id = id),
    ui :=
      if s.ui.selectedActorId = some id then
        { s.ui with selectedActorId := none }
      else s.ui }

/-! ### File migration (migrateGrisFile, types module of main.tsx) -/

/-- A serialized actor as the migration reads it: optional fields model
keys that may be absent in a legacy payload.  `shape` is the legacy v1
field, `shapes` the current one. -/
structure MActor where
  id : String
  label : String
  shape : Option Shape
  shapes : Option (List Shape)
  keyframes : Option (List KeyFrame)
  interpolation : Option InterpolationType
deriving DecidableEq, Repr

/-- A serialized project payload as the migration reads it; a missing
`version`, `actors` or `backgrounds` key is `none`. -/
structure MFile where
  version : Option Int
  project : Project
  actors : Option (List MActor)
  backgrounds : Option (List CanvasBackground)
deriving DecidableEq, Repr

/-- The per-actor body of the migration map: shape becomes a
one-element (or empty) shapes list, missing keyframes become the empty
list, missing interpolation defaults to step. -/
def migrateActorV1 (a : MActor) : MActor :=
  { id := a.id
    label := a.label
    shape := none
    shapes := some (match a.shape with | some sh => [sh] | none => [])
    keyframes := some (a.keyframes.getD [])
    interpolation := some (a.interpolation.getD InterpolationType.step) }

/-- migrateGrisFile: payloads whose version is missing (JavaScript
falsy, hence also 0) or equal to 1 are upgraded and stamped with the
current version 2; anything else is returned unchanged. -/
def migrateGrisFile (f : MFile) : MFile :=
  if f.version = none ∨ f.version = some 0 ∨ f.version = some 1 then
    { version := some 2
      project := f.project
      actors := some ((f.actors.getD []).map migrateActorV1)
      backgrounds := some (f.backgrounds.getD []) }
  else f

/-! ### Polygon geometry (isPointInPolygon, CanvasPanel.tsx) -/

/-- The crossing condition of the ray-casting loop:
`(yi > y) !== (yj > y)`. -/
def crossingCond (y yi yj : ℚ) : Bool :=
  decide (y < yi) != decide (y < yj)

/-- One edge test of the ray-casting loop: the crossing condition and
the x test `x < (xj - xi) * (y - yi) / (yj - yi) + xi`. -/
def edgeCrossing (x y : ℚ) (pi pj : ℚ × ℚ) : Bool :=
  crossingCond y pi.2 pj.2 &&
    decide (x < (pj.1 - pi.1) * (y - pi.2) / (pj.2 - pi.2) + pi.1)

/-- The ray-casting loop `for (let i = 0, j = n - 1; i < n; j = i++)`
over an arbitrary polygon's point list, toggling inclusion at every
crossing edge. -/
def rayCast (x y : ℚ) (pts : List (ℚ × ℚ)) : Bool :=
  (List.range pts.length).foldl
    (fun inside i =>
      let pI := pts.getD i (0, 0)
      let pJ := pts.getD (if i = 0 then pts.length - 1 else i - 1) (0, 0)
      if edgeCrossing x y pI pJ then !inside else inside)
    false

/-- isPointInPolygon: inclusive bounds test for a rectangle, even-odd
ray casting for an arbitrary polygon. -/
def isPointInPolygon (x y : ℚ) (poly : Polygon) : Bool :=
  match poly with
  | Polygon.rectangle rx ry w h =>
    decide (rx ≤ x) && decide (x ≤ rx + w) && decide (ry ≤ y) && decide (y ≤ ry + h)
  | Polygon.polygon pts => rayCast x y pts

/-- The edge test with the division guarded: `none` would signal a
division by zero reached with the crossing condition satisfied. -/
def edgeCrossingChecked (x y : ℚ) (pi pj : ℚ × ℚ) : Option Bool :=
  if crossingCond y pi.2 pj.2 then
    if pj.2 - pi.2 = 0 then none
    else some (decide (x < (pj.1 - pi.1) * (y - pi.2) / (pj.2 - pi.2) + pi.1))
  else some false

/-- The ray-casting loop threaded through the guarded edge test. -/
def rayCastChecked (x y : ℚ) (pts : List (ℚ × ℚ)) : Option Bool :=
  (List.range pts.length).foldl
    (fun acc i =>
      match acc with
      | none => none
      | some inside =>
        match
          edgeCrossingChecked x y (pts.getD i (0, 0))
            (pts.getD (if i = 0 then pts.length - 1 else i - 1) (0, 0)) with
        | none => none
        | some c => some (if c then !inside else inside))
    (some false)

/-- isPointInPolygon with every division guarded. -/
def isPointInPolygonChecked (x y : ℚ) (poly : Polygon) : Option Bool :=
  match poly with
  | Polygon.rectangle rx ry w h =>
    some (decide (rx ≤ x) && decide (x ≤ rx + w) && decide (ry ≤ y) && decide (y ≤ ry + h))
  | Polygon.polygon pts => rayCastChecked x y pts

/-! ### History manager -/

/-- Modelled from the spec: the state machine of the undo history (the
zundo temporal middleware is an external dependency; only its
configuration — partialize to the tracked slice, limit 100 — is in the
repository).  Snapshots are abstracted to natural numbers standing for
distinct tracked-slice states: past (oldest first), present, future
(nearest first). -/
structure Temporal where
  past : List Nat
  present : Nat
  future : List Nat
deriving DecidableEq, Repr

/-- Modelled from the spec: a tracked mutation pushes the previous
present onto past, sets the new present, clears future, and evicts the
oldest past entries beyond the capacity. -/
def trackStep (limit : Nat) (h : Temporal) (next : Nat) : Temporal :=
  let p := h.past ++ [h.present]
  { past := p.drop (p.length - limit), present := next, future := [] }

/-- Modelled from the spec: undo pops the newest past entry into
present and pushes the old present onto the front of future; no-op on
empty past. -/
def undoStep (h : Temporal) : Temporal :=
  match h.past.getLast? with
  | none => h
  | some x =>
    { past := h.past.dropLast, present := x, future := h.present :: h.future }

/-- Modelled from the spec: redo, the symmetric inverse of undo; no-op
on empty future. -/
def redoStep (h : Temporal) : Temporal :=
  match h.future with
  | [] => h
  | x :: rest => { past := h.past ++ [h.present], present := x, future := rest }

/-- 150 distinct tracked mutations (presents 1, 2, …, 150) applied to
the empty history with the configured limit of 100. -/
def afterMutations150 : Temporal :=
  (List.range 150).foldl (fun h i => trackStep 100 h (i + 1)) ⟨[], 0, []⟩

/-! ### Theorems -/

/-- C5: migration is idempotent — migrating twice equals migrating
once for every payload — and re-migrating an already-current
(version 2) file is the identity transform. -/
theorem migrate_idempotent (f : MFile) :
    migrateGrisFile (migrateGrisFile f) = migrateGrisFile f ∧
    (f.version = some 2 → migrateGrisFile f = f) := by
  have key : ∀ g : MFile, g.version = some 2 → migrateGrisFile g = g := by
    intro g hg
    rw [migrateGrisFile, if_neg]
    simp [hg]
  refine ⟨?_, key f⟩
  by_cases h : f.version = none ∨ f.version = some 0 ∨ f.version = some 1
  · apply key
    rw [migrateGrisFile, if_pos h]
  · have hmf : migrateGrisFile f = f := by rw [migrateGrisFile, if_neg h]
    rw [hmf, hmf]

/-- Witness for C5 at a concrete current file. -/
def currentFile : MFile :=
  { version := some 2
    project := { name := "p", songFilename := "", canvasWidth := 1920, canvasHeight := 1080 }
    actors := some []
    backgrounds := some [] }

/-- C5 applied to a concrete version-2 file. -/
theorem migrate_idempotent_witness : migrateGrisFile currentFile = currentFile :=
  (migrate_idempotent currentFile).2 rfl

/-- C10: on a payload with version absent or 1, migration stamps
version 2 and fills the claimed defaults: missing actors and
backgrounds become the empty list, a missing keyframe list becomes the
empty list, a missing interpolation mode becomes step, and the legacy
nullable shape becomes a one-element or empty shapes list. -/
theorem migrate_defaults (f : MFile) (h : f.version = none ∨ f.version = some 1) :
    (migrateGrisFile f).version = some 2 ∧
    (migrateGrisFile f).actors = some ((f.actors.getD []).map migrateActorV1) ∧
    (f.actors = none → (migrateGrisFile f).actors = some []) ∧
    (f.backgrounds = none → (migrateGrisFile f).backgrounds = some []) ∧
    ∀ a : MActor,
      (a.keyframes = none → (migrateActorV1 a).keyframes = some []) ∧
      (a.interpolation = none →
        (migrateActorV1 a).interpolation = some InterpolationType.step) ∧
      (∀ sh, a.shape = some sh → (migrateActorV1 a).shapes = some [sh]) ∧
      (a.shape = none → (migrateActorV1 a).shapes = some []) := by
  have hc : f.version = none ∨ f.version = some 0 ∨ f.version = some 1 := by
    rcases h with h | h
    · exact Or.inl h
    · exact Or.inr (Or.inr h)
  rw [migrateGrisFile, if_pos hc]
  refine ⟨rfl, rfl, ?_, ?_, ?_⟩
  · intro ha; rw [ha]; rfl
  · intro hb; rw [hb]; rfl
  · intro a
    refine ⟨?_, ?_, ?_, ?_⟩
    · intro hk; simp [migrateActorV1, hk]
    · intro hi; simp [migrateActorV1, hi]
    · intro sh hsh; simp [migrateActorV1, hsh]
    · intro hsh; simp [migrateActorV1, hsh]

/-- Witness for C10 at a concrete legacy file with everything absent. -/
def legacyFile : MFile :=
  { version := none
    project := { name := "p", songFilename := "", canvasWidth := 1920, canvasHeight := 1080 }
    actors := none
    backgrounds := none }

/-- C10 applied to a concrete legacy file. -/
theorem migrate_defaults_witness : (migrateGrisFile legacyFile).version = some 2 :=
  (migrate_defaults legacyFile (Or.inl rfl)).1

/-- C8: removeActor removes exactly the actors whose id matches (as a
subsequence, so the relative order of the others is preserved), is a
no-op on the actor list when no actor has the id, rewrites the
selection to none exactly when it pointed at the removed id, and leaves
every other state field unchanged. -/
theorem removeActor_spec (s : ProjectState) (id : String) :
    ((removeActor s id).actors.Sublist s.actors ∧
      ∀ a, a ∈ (removeActor s id).actors ↔ a ∈ s.actors ∧ a.id ≠ id) ∧
    ((∀ a ∈ s.actors, a.id ≠ id) → (removeActor s id).actors = s.actors) ∧
    (removeActor s id).ui.selectedActorId =
      (if s.ui.selectedActorId = some id then none else s.ui.selectedActorId) ∧
    ((removeActor s id).ui.selectedBackgroundId = s.ui.selectedBackgroundId ∧
      (removeActor s id).ui.zoom = s.ui.zoom ∧
      (removeActor s id).ui.scrollX = s.ui.scrollX ∧
      (removeActor s id).ui.scrollY = s.ui.scrollY ∧
      (removeActor s id).ui.tool = s.ui.tool) ∧
    (removeActor s id).project = s.project ∧
    (removeActor s id).backgrounds = s.backgrounds ∧
    (removeActor s id).playback = s.playback ∧
    (removeActor s id).audioBuffer = s.audioBuffer ∧
    (removeActor s id).audioFile = s.audioFile := by
  refine ⟨⟨List.filter_sublist _, ?_⟩, ?_, ?_, ?_, rfl, rfl, rfl, rfl, rfl⟩
  · intro a
    simp [removeActor, List.mem_filter]
  · intro hnone
    simp only [removeActor]
    rw [List.filter_eq_self]
    intro a ha
    simpa using hnone a ha
  · by_cases h : s.ui.selectedActorId = some id <;> simp [removeActor, h]
  · by_cases h : s.ui.selectedActorId = some id <;> simp [removeActor, h]

/-- Witness state for C8: one actor, with the selection pointing at a
different id. -/
def wState : ProjectState :=
  { project := { name := "p", songFilename := "", canvasWidth := 1920, canvasHeight := 1080 }
    actors := [{ id := "a1", label := "A", shapes := [], keyframes := [],
                 interpolation := InterpolationType.step }]
    backgrounds := []
    playback := { currentTime := 0, isPlaying := false, duration := 0 }
    ui := { selectedActorId := some "a1", selectedBackgroundId := none, zoom := 100,
            scrollX := 0, scrollY := 0, tool := Tool.select }
    audioBuffer := none
    audioFile := none }

/-- C8 applied to a concrete state and an id that no actor carries. -/
theorem removeActor_spec_witness : (removeActor wState "zz").actors = wState.actors :=
  (removeActor_spec wState "zz").2.1 (by intro a ha; simp [wState] at ha; simp [ha])

/-- C7: the cue list is sorted with primary key ascending t and
secondary key lexicographic id, and generateCues is deterministic (two
runs on the same inputs are the identical list, as it is a pure
function). -/
theorem generateCues_sorted (actors : List Actor) (duration tickRate : ℚ) :
    List.Pairwise cueLE (generateCues actors duration tickRate) ∧
    generateCues actors duration tickRate = generateCues actors duration tickRate := by
  constructor
  · unfold generateCues
    exact List.sorted_insertionSort cueLE _
  · rfl

set_option maxRecDepth 10000 in
/-- C4: a tracked mutation never leaves more than 100 past snapshots;
after 150 distinct mutations, the past holds exactly the last 100
previous presents (snapshots 50…149), none of the oldest 50 snapshots
(0…49) is in it, 100 undos reach snapshot 50 with an empty past, and a
further undo is a no-op, so exactly 100 states are reachable by
repeated undo. -/
theorem history_bound :
    (∀ (h : Temporal) (next : Nat), ((trackStep 100 h next).past).length ≤ 100) ∧
    afterMutations150.past = List.range' 50 100 ∧
    (∀ j, j < 50 → j ∉ afterMutations150.past) ∧
    undoStep^[100] afterMutations150 = ⟨[], 50, List.range' 51 100⟩ ∧
    undoStep (undoStep^[100] afterMutations150) = undoStep^[100] afterMutations150 := by
  refine ⟨?_, by decide, ?_, by decide, by decide⟩
  · intro h next
    simp only [trackStep, List.length_drop]
    omega
  · intro j hj
    have h2 : afterMutations150.past = List.range' 50 100 := by decide
    rw [h2, List.mem_range'_1]
    omega

/-- C4 applied to a concrete unrecoverable snapshot. -/
theorem history_bound_witness : 0 ∉ afterMutations150.past :=
  history_bound.2.2.1 0 (by norm_num)

/-! ### Characterising the keyframe scan of the interpolation engine -/

/-- The before-component of the scan is the last keyframe in list order
with time ≤ t, falling back to the accumulator. -/
lemma findSurrounding_fold_fst (t : ℚ) :
    ∀ (l : List KeyFrame) (p : Option KeyFrame × Option KeyFrame),
      (l.foldl
        (fun p kf =>
          (if kf.time ≤ t then some kf else p.1,
           if t ≤ kf.time ∧ p.2 = none then some kf else p.2)) p).1 =
      Option.or ((l.filter fun k => decide (k.time ≤ t)).getLast?) p.1 := by
  intro l
  induction l with
  | nil => intro p; cases hp : p.1 <;> simp [hp, Option.or]
  | cons kf l ih =>
    intro p
    rw [List.foldl_cons, ih, List.filter_cons]
    by_cases hkf : kf.time ≤ t
    · cases hfl : (List.filter (fun k => decide (k.time ≤ t)) l).getLast? <;>
        simp [hkf, hfl, Option.or, List.getLast?_cons]
    · simp [hkf]

/-- The after-component of the scan is the accumulator if already set,
else the first keyframe in list order with time ≥ t. -/
lemma findSurrounding_fold_snd (t : ℚ) :
    ∀ (l : List KeyFrame) (p : Option KeyFrame × Option KeyFrame),
      (l.foldl
        (fun p kf =>
          (if kf.time ≤ t then some kf else p.1,
           if t ≤ kf.time ∧ p.2 = none then some kf else p.2)) p).2 =
      Option.or p.2 (l.find? fun k => decide (t ≤ k.time)) := by
  intro l
  induction l with
  | nil => intro p; cases hp : p.2 <;> simp [hp, Option.or]
  | cons kf l ih =>
    intro p
    rw [List.foldl_cons, ih, List.find?_cons]
    cases hp : p.2 with
    | some x => simp [Option.or]
    | none =>
      by_cases ht : t ≤ kf.time
      · simp [ht, Option.or]
      · simp [ht, Option.or]

/-- find? is the head of the filtered list. -/
lemma find?_eq_head?_filter {α : Type} (p : α → Bool) :
    ∀ l : List α, l.find? p = (l.filter p).head? := by
  intro l
  induction l with
  | nil => rfl
  | cons a l ih =>
    by_cases hp : p a = true
    · rw [List.find?_cons, List.filter_cons, if_pos hp, hp]
      rfl
    · have hp2 : p a = false := by
        cases hval : p a
        · rfl
        · exact absurd hval hp
      rw [List.find?_cons, List.filter_cons, if_neg hp, hp2]
      exact ih

/-- On a list strictly sorted by time, the time-maximising fold of the
reference definition picks the last element. -/
lemma maxFold_sorted_aux :
    ∀ (l : List KeyFrame) (m : KeyFrame),
      List.Pairwise (fun k1 k2 => k1.time < k2.time) (m :: l) →
      l.foldl
        (fun acc k =>
          match acc with
          | none => some k
          | some mm => if mm.time < k.time then some k else acc) (some m) =
      (m :: l).getLast? := by
  intro l
  induction l with
  | nil => intro m _; rfl
  | cons x xs ih =>
    intro m hp
    have hmx : m.time < x.time := (List.pairwise_cons.1 hp).1 x (List.mem_cons_self x xs)
    rw [List.foldl_cons]
    have hstep :
        (match some m with
          | none => some x
          | some mm => if mm.time < x.time then some x else some m) = some x := by
      simp [hmx]
    rw [hstep, ih x (List.pairwise_cons.1 hp).2, List.getLast?_cons_cons]

/-- greatestAtMost equals the last element of the filtered list when
the keyframes are strictly sorted by time. -/
lemma greatestAtMost_eq_getLast (kfs : List KeyFrame) (t : ℚ)
    (hs : SortedTimes kfs) :
    greatestAtMost kfs t = (kfs.filter fun k => decide (k.time ≤ t)).getLast? := by
  unfold greatestAtMost
  have hs2 : List.Pairwise (fun k1 k2 => k1.time < k2.time)
      (kfs.filter fun k => decide (k.time ≤ t)) :=
    hs.sublist (List.filter_sublist kfs)
  cases hfl : kfs.filter fun k => decide (k.time ≤ t) with
  | nil => rfl
  | cons m xs =>
    rw [hfl] at hs2
    rw [List.foldl_cons]
    exact maxFold_sorted_aux xs m hs2

/-- On a list strictly sorted by time, the time-minimising fold of the
reference definition keeps its head accumulator. -/
lemma minFold_sorted_aux :
    ∀ (l : List KeyFrame) (m : KeyFrame),
      List.Pairwise (fun k1 k2 => k1.time < k2.time) (m :: l) →
      l.foldl
        (fun acc k =>
          match acc with
          | none => some k
          | some mm => if k.time < mm.time then some k else acc) (some m) =
      some m := by
  intro l
  induction l with
  | nil => intro m _; rfl
  | cons x xs ih =>
    intro m hp
    have hmx : m.time < x.time := (List.pairwise_cons.1 hp).1 x (List.mem_cons_self x xs)
    rw [List.foldl_cons]
    have hstep :
        (match some m with
          | none => some x
          | some mm => if x.time < mm.time then some x else some m) = some m := by
      simp [asymm hmx]
    rw [hstep]
    apply ih
    rw [List.pairwise_cons] at hp ⊢
    exact ⟨fun k hk => hp.1 k (List.mem_cons_of_mem x hk),
      ((List.pairwise_cons.1 hp.2).2)⟩

/-- leastAtLeast equals the head of the filtered list when the
keyframes are strictly sorted by time. -/
lemma leastAtLeast_eq_head (kfs : List KeyFrame) (t : ℚ)
    (hs : SortedTimes kfs) :
    leastAtLeast kfs t = (kfs.filter fun k => decide (t ≤ k.time)).head? := by
  unfold leastAtLeast
  have hs2 : List.Pairwise (fun k1 k2 => k1.time < k2.time)
      (kfs.filter fun k => decide (t ≤ k.time)) :=
    hs.sublist (List.filter_sublist kfs)
  cases hfl : kfs.filter fun k => decide (t ≤ k.time) with
  | nil => rfl
  | cons m xs =>
    rw [hfl] at hs2
    rw [List.foldl_cons]
    exact minFold_sorted_aux xs m hs2

/-- On sorted keyframes the one-pass scan of the source agrees with the
reference before/after selection. -/
lemma findSurrounding_eq_ref (kfs : List KeyFrame) (t : ℚ) (hs : SortedTimes kfs) :
    findSurrounding t kfs = (greatestAtMost kfs t, leastAtLeast kfs t) := by
  unfold findSurrounding
  have h1 := findSurrounding_fold_fst t kfs (none, none)
  have h2 := findSurrounding_fold_snd t kfs (none, none)
  have hor1 : ∀ o : Option KeyFrame, Option.or o none = o := by
    intro o; cases o <;> rfl
  have hor2 : ∀ o : Option KeyFrame, Option.or none o = o := by
    intro o; rfl
  apply Prod.ext
  · rw [h1, hor1, greatestAtMost_eq_getLast kfs t hs]
  · rw [h2, hor2, leastAtLeast_eq_head kfs t hs,
      find?_eq_head?_filter]

/-- C1: on a keyframe list sorted ascending with unique times,
getActorValueAtTime agrees with the reference definition of the
interpolation engine (0 on an empty list, else case analysis on the
keyframe of greatest time ≤ t and the keyframe of least time ≥ t, with
hold, step and linear-interpolation cases). -/
theorem getActorValueAtTime_eq_ref (actor : Actor) (t : ℚ)
    (hs : SortedTimes actor.keyframes) :
    getActorValueAtTime actor t = refValueAt actor t := by
  rw [getActorValueAtTime, refValueAt, findSurrounding_eq_ref actor.keyframes t hs]
  by_cases he : actor.keyframes.isEmpty = true
  · rw [if_pos he, if_pos he]
  · rw [if_neg he, if_neg he]
    cases hb : greatestAtMost actor.keyframes t <;>
      cases ha : leastAtLeast actor.keyframes t <;> rfl

/-- Witness actor for C1: two keyframes, linear interpolation. -/
def witnessActor : Actor :=
  { id := "a", label := "A", shapes := [], keyframes := [⟨0, 0⟩, ⟨10, 1⟩],
    interpolation := InterpolationType.linear }

/-- C1 applied to a concrete sorted actor and query time. -/
theorem getActorValueAtTime_eq_ref_witness :
    getActorValueAtTime witnessActor 5 = refValueAt witnessActor 5 :=
  getActorValueAtTime_eq_ref witnessActor 5
    (by norm_num [SortedTimes, witnessActor, List.pairwise_cons])

/-- A before-keyframe produced by the scan is a list member with
time ≤ t. -/
lemma surrounding_before_mem (kfs : List KeyFrame) (t : ℚ) (b : KeyFrame)
    (h : (findSurrounding t kfs).1 = some b) : b ∈ kfs ∧ b.time ≤ t := by
  rw [findSurrounding, findSurrounding_fold_fst] at h
  have h2 : (kfs.filter fun k => decide (k.time ≤ t)).getLast? = some b := by
    cases hfl : (kfs.filter fun k => decide (k.time ≤ t)).getLast? with
    | none => rw [hfl] at h; exact absurd h (by simp [Option.or])
    | some y => rw [hfl] at h; simp only [Option.or] at h; exact h
  have h3 : b ∈ kfs.filter fun k => decide (k.time ≤ t) :=
    List.mem_of_mem_getLast? h2
  rw [List.mem_filter] at h3
  exact ⟨h3.1, by simpa using h3.2⟩

/-- An after-keyframe produced by the scan is a list member with
time ≥ t. -/
lemma surrounding_after_mem (kfs : List KeyFrame) (t : ℚ) (a : KeyFrame)
    (h : (findSurrounding t kfs).2 = some a) : a ∈ kfs ∧ t ≤ a.time := by
  rw [findSurrounding, findSurrounding_fold_snd] at h
  have h2 : kfs.find? (fun k => decide (t ≤ k.time)) = some a := h
  exact ⟨List.mem_of_find?_eq_some h2, by simpa using List.find?_some h2⟩

/-- C6: with sorted keyframes whose values lie in [0,1], the value of
getActorValueAtTime lies in [0,1], and whenever both surrounding
keyframes exist at distinct times the linear interpolation parameter
(t - before.time)/(after.time - before.time) lies in [0,1]. -/
theorem getActorValueAtTime_bounds (actor : Actor) (t : ℚ)
    (_hs : SortedTimes actor.keyframes)
    (hv : ∀ k ∈ actor.keyframes, 0 ≤ k.value ∧ k.value ≤ 1) :
    (0 ≤ getActorValueAtTime actor t ∧ getActorValueAtTime actor t ≤ 1) ∧
    ∀ b a, actor.interpolation = InterpolationType.linear →
      findSurrounding t actor.keyframes = (some b, some a) → b.time ≠ a.time →
      0 ≤ (t - b.time) / (a.time - b.time) ∧ (t - b.time) / (a.time - b.time) ≤ 1 := by
  have hparam : ∀ b a, findSurrounding t actor.keyframes = (some b, some a) →
      b.time ≠ a.time →
      0 ≤ (t - b.time) / (a.time - b.time) ∧ (t - b.time) / (a.time - b.time) ≤ 1 := by
    intro b a heq hne
    have hb := surrounding_before_mem actor.keyframes t b (by rw [heq])
    have ha := surrounding_after_mem actor.keyframes t a (by rw [heq])
    have hlt : b.time < a.time := lt_of_le_of_ne (hb.2.trans ha.2) hne
    have hpos : (0:ℚ) < a.time - b.time := by linarith
    constructor
    · apply div_nonneg
      · linarith [hb.2]
      · linarith
    · rw [div_le_one hpos]
      linarith [ha.2]
  refine ⟨?_, fun b a _ => hparam b a⟩
  rw [getActorValueAtTime]
  by_cases he : actor.keyframes.isEmpty = true
  · rw [if_pos he]
    exact ⟨le_refl 0, zero_le_one⟩
  · rw [if_neg he]
    cases hb : (findSurrounding t actor.keyframes).1 with
    | none =>
      cases ha : (findSurrounding t actor.keyframes).2 with
      | none => exact ⟨le_refl 0, zero_le_one⟩
      | some a => exact hv a (surrounding_after_mem actor.keyframes t a ha).1
    | some b =>
      cases ha : (findSurrounding t actor.keyframes).2 with
      | none => exact hv b (surrounding_before_mem actor.keyframes t b hb).1
      | some a =>
        have hbm := surrounding_before_mem actor.keyframes t b hb
        have ham := surrounding_after_mem actor.keyframes t a ha
        have hbv := hv b hbm.1
        have hav := hv a ham.1
        show 0 ≤ (if b.time = a.time then b.value
            else
              match actor.interpolation with
              | InterpolationType.linear =>
                b.value + (t - b.time) / (a.time - b.time) * (a.value - b.value)
              | InterpolationType.step => b.value) ∧
          (if b.time = a.time then b.value
            else
              match actor.interpolation with
              | InterpolationType.linear =>
                b.value + (t - b.time) / (a.time - b.time) * (a.value - b.value)
              | InterpolationType.step => b.value) ≤ 1
        by_cases heq : b.time = a.time
        · rw [if_pos heq]
          exact hbv
        · rw [if_neg heq]
          cases hint : actor.interpolation with
          | step => exact hbv
          | linear =>
            have hpair : findSurrounding t actor.keyframes = (some b, some a) :=
              Prod.ext hb ha
            have hθ := hparam b a hpair heq
            constructor
            · nlinarith [hθ.1, hθ.2, hbv.1, hbv.2, hav.1, hav.2,
                mul_nonneg (sub_nonneg.2 hθ.2) hbv.1, mul_nonneg hθ.1 hav.1]
            · nlinarith [hθ.1, hθ.2, hbv.1, hbv.2, hav.1, hav.2,
                mul_nonneg (sub_nonneg.2 hθ.2) (sub_nonneg.2 hbv.2),
                mul_nonneg hθ.1 (sub_nonneg.2 hav.2)]

/-- C6 applied to a concrete sorted actor with values in [0,1]. -/
theorem getActorValueAtTime_bounds_witness :
    0 ≤ getActorValueAtTime witnessActor 5 ∧ getActorValueAtTime witnessActor 5 ≤ 1 :=
  (getActorValueAtTime_bounds witnessActor 5
    (by norm_num [SortedTimes, witnessActor, List.pairwise_cons])
    (by
      intro k hk
      simp only [witnessActor, List.mem_cons, List.not_mem_nil, or_false] at hk
      rcases hk with rfl | rfl <;> norm_num)).1

/-- C3: on a sorted keyframe list with unique times, addKeyframe leaves
exactly one keyframe at the new time carrying the new value, leaves the
keyframes at every other time unchanged, and yields a list that is
again sorted ascending with unique times. -/
theorem addKeyframe_overwrite (kfs : List KeyFrame) (kf : KeyFrame)
    (hs : SortedTimes kfs) :
    SortedTimes (addKeyframeList kfs kf) ∧
    (addKeyframeList kfs kf).filter (fun k => decide (k.time = kf.time)) = [kf] ∧
    ∀ s : ℚ, s ≠ kf.time →
      (addKeyframeList kfs kf).filter (fun k => decide (k.time = s)) =
        kfs.filter (fun k => decide (k.time = s)) := by
  have hperm : (addKeyframeList kfs kf).Perm
      ((kfs.filter fun k => decide ¬(k.time = kf.time)) ++ [kf]) :=
    List.perm_insertionSort timeLE _
  have hle : List.Pairwise timeLE (addKeyframeList kfs kf) :=
    List.sorted_insertionSort timeLE _
  have hne_base : List.Pairwise (fun k1 k2 : KeyFrame => k1.time ≠ k2.time)
      ((kfs.filter fun k => decide ¬(k.time = kf.time)) ++ [kf]) := by
    rw [List.pairwise_append]
    refine ⟨(hs.sublist (List.filter_sublist kfs)).imp (fun h => ne_of_lt h),
      List.pairwise_singleton _ _, ?_⟩
    intro a ha b hb
    rw [List.mem_filter] at ha
    rw [List.mem_singleton] at hb
    subst hb
    simpa using ha.2
  have hne : List.Pairwise (fun k1 k2 : KeyFrame => k1.time ≠ k2.time)
      (addKeyframeList kfs kf) :=
    (hperm.pairwise_iff (fun h => Ne.symm h)).2 hne_base
  have hsorted : SortedTimes (addKeyframeList kfs kf) :=
    (hle.and hne).imp (fun h => lt_of_le_of_ne h.1 h.2)
  refine ⟨hsorted, ?_, ?_⟩
  · have hpf : ((addKeyframeList kfs kf).filter
        (fun k => decide (k.time = kf.time))).Perm
        (((kfs.filter fun k => decide ¬(k.time = kf.time)) ++ [kf]).filter
          (fun k => decide (k.time = kf.time))) := hperm.filter _
    rw [List.filter_append] at hpf
    have h1 : (kfs.filter fun k => decide ¬(k.time = kf.time)).filter
        (fun k => decide (k.time = kf.time)) = [] := by
      rw [List.filter_eq_nil_iff]
      intro a ha
      rw [List.mem_filter] at ha
      simp only [decide_not, Bool.not_eq_eq_eq_not, Bool.not_true,
        decide_eq_false_iff_not] at ha
      simpa using ha.2
    have h2 : ([kf] : List KeyFrame).filter
        (fun k => decide (k.time = kf.time)) = [kf] := by simp
    rw [h1, h2] at hpf
    exact List.perm_singleton.1 hpf
  · intro s hsne
    have hpf : ((addKeyframeList kfs kf).filter
        (fun k => decide (k.time = s))).Perm
        (((kfs.filter fun k => decide ¬(k.time = kf.time)) ++ [kf]).filter
          (fun k => decide (k.time = s))) := hperm.filter _
    rw [List.filter_append] at hpf
    have h2 : ([kf] : List KeyFrame).filter (fun k => decide (k.time = s)) = [] := by
      simp only [List.filter_cons, List.filter_nil]
      rw [if_neg]
      simp only [decide_eq_true_eq]
      exact fun h => hsne (h.symm)
    have h1 : (kfs.filter fun k => decide ¬(k.time = kf.time)).filter
        (fun k => decide (k.time = s)) = kfs.filter (fun k => decide (k.time = s)) := by
      rw [List.filter_filter]
      apply List.filter_congr
      intro a _
      by_cases hat : a.time = s
      · have : ¬(a.time = kf.time) := by rw [hat]; exact hsne
        simp [hat, this, hsne]
      · simp [hat]
    rw [h1, h2, List.append_nil] at hpf
    have hls : List.Pairwise (fun k1 k2 : KeyFrame => k1.time < k2.time)
        ((addKeyframeList kfs kf).filter (fun k => decide (k.time = s))) :=
      hsorted.sublist (List.filter_sublist _)
    have hrs : List.Pairwise (fun k1 k2 : KeyFrame => k1.time < k2.time)
        (kfs.filter (fun k => decide (k.time = s))) :=
      hs.sublist (List.filter_sublist _)
    exact List.eq_of_perm_of_sorted hpf hls hrs

/-- C3 applied concretely: adding at time 5 value 0.2 and then at time
5 value 0.9 leaves exactly one keyframe at time 5, with value 0.9. -/
theorem addKeyframe_overwrite_witness :
    (addKeyframeList (addKeyframeList [] ⟨5, 1/5⟩) ⟨5, 9/10⟩).filter
      (fun k => decide (k.time = (5:ℚ))) = [⟨5, 9/10⟩] :=
  (addKeyframe_overwrite (addKeyframeList [] ⟨5, 1/5⟩) ⟨5, 9/10⟩
    (by simp [addKeyframeList, SortedTimes])).2.1

/-- Rounding to 3 decimals is idempotent. -/
lemma round3_idem (x : ℚ) : round3 (round3 x) = round3 x := by
  unfold round3
  rw [div_mul_cancel₀ _ (by norm_num : (1000:ℚ) ≠ 0), Int.floor_int_add]
  norm_num

/-- An actor whose keyframe time and value are not 3-decimal numbers. -/
def rawActor : Actor :=
  { id := "a1", label := "A", shapes := [], keyframes := [⟨1/7, 1/7⟩],
    interpolation := InterpolationType.step }

/-- C2 counterexample: with duration 0, generateCues emits the raw
keyframe time 1/7 and raw value 1/7, which are not rounded to 3
decimal places, so not every emitted cue has rounded fields. -/
theorem generateCues_round_counterexample :
    ¬ ((generateCues [rawActor] 0 (1/10)).Forall fun c =>
        round3 c.t = c.t ∧ round3 c.state = c.state) := by
  norm_num [generateCues, rawActor, getActorValueAtTime, findSurrounding,
    cueLE, List.Forall, round3]

/-- C2 amended: in the sampled branch (duration ≠ 0) every emitted cue
has its t and state rounded to 3 decimal places; the duration == 0
branch emits raw keyframe times and values without rounding. -/
theorem generateCues_round_amended (actors : List Actor) (duration tickRate : ℚ)
    (hd : duration ≠ 0) :
    (generateCues actors duration tickRate).Forall fun c =>
      round3 c.t = c.t ∧ round3 c.state = c.state := by
  rw [List.forall_iff_forall_mem]
  intro c hc
  rw [generateCues] at hc
  rw [List.mem_insertionSort] at hc
  rw [if_neg hd] at hc
  rw [List.mem_flatMap] at hc
  obtain ⟨t, _, hc2⟩ := hc
  rw [List.mem_map] at hc2
  obtain ⟨actor, _, rfl⟩ := hc2
  exact ⟨round3_idem t, round3_idem (getActorValueAtTime actor t)⟩

/-- C2 amended, applied with a nonzero duration. -/
theorem generateCues_round_amended_witness :
    (generateCues [] 1 1).Forall fun c =>
      round3 c.t = c.t ∧ round3 c.state = c.state :=
  generateCues_round_amended [] 1 1 (by norm_num)

/-- The crossing condition forces the two edge endpoints onto opposite
sides of the ray, so their y-difference is nonzero. -/
lemma crossingCond_divisor_ne (y yi yj : ℚ) (h : crossingCond y yi yj = true) :
    yj - yi ≠ 0 := by
  rw [crossingCond, bne_iff_ne] at h
  intro heq
  have hy : yj = yi := by linarith [sub_eq_zero.1 heq]
  rw [hy] at h
  exact h rfl

/-- The guarded edge test never reports a division by zero and agrees
with the source edge test. -/
lemma edgeCrossingChecked_eq (x y : ℚ) (pi pj : ℚ × ℚ) :
    edgeCrossingChecked x y pi pj = some (edgeCrossing x y pi pj) := by
  rw [edgeCrossingChecked, edgeCrossing]
  by_cases hc : crossingCond y pi.2 pj.2 = true
  · rw [if_pos hc, if_neg (crossingCond_divisor_ne y pi.2 pj.2 hc), hc,
      Bool.true_and]
  · have hc2 : crossingCond y pi.2 pj.2 = false := by
      cases hval : crossingCond y pi.2 pj.2
      · rfl
      · exact absurd hval hc
    rw [if_neg hc, hc2, Bool.false_and]

/-- The guarded ray-casting fold agrees with the source fold. -/
lemma rayCastChecked_eq (x y : ℚ) (pts : List (ℚ × ℚ)) :
    rayCastChecked x y pts = some (rayCast x y pts) := by
  rw [rayCastChecked, rayCast]
  have haux : ∀ (l : List ℕ) (b : Bool),
      List.foldl
        (fun acc i =>
          match acc with
          | none => none
          | some inside =>
            match
              edgeCrossingChecked x y (pts.getD i (0, 0))
                (pts.getD (if i = 0 then pts.length - 1 else i - 1) (0, 0)) with
            | none => none
            | some c => some (if c then !inside else inside))
        (some b) l =
      some (List.foldl
        (fun inside i =>
          let pI := pts.getD i (0, 0)
          let pJ := pts.getD (if i = 0 then pts.length - 1 else i - 1) (0, 0)
          if edgeCrossing x y pI pJ then !inside else inside)
        b l) := by
    intro l
    induction l with
    | nil => intro b; rfl
    | cons i l ih =>
      intro b
      simp only [List.foldl_cons]
      rw [edgeCrossingChecked_eq]
      exact ih _
  exact haux _ false

/-- C9: whenever the crossing condition of the ray-casting loop holds,
the divisor (yj - yi) of the crossing test is nonzero, so the division
is guarded: on every polygon and query point the fully division-guarded
variant of isPointInPolygon reaches no division by zero and computes
the same total function. -/
theorem isPointInPolygon_div_guarded :
    (∀ y yi yj : ℚ, crossingCond y yi yj = true → yj - yi ≠ 0) ∧
    ∀ x y poly, isPointInPolygonChecked x y poly = some (isPointInPolygon x y poly) := by
  refine ⟨crossingCond_divisor_ne, ?_⟩
  intro x y poly
  cases poly with
  | rectangle rx ry w h => rfl
  | polygon pts => exact rayCastChecked_eq x y pts

/-- C9 applied to a concrete crossing edge. -/
theorem isPointInPolygon_div_guarded_witness : ((-1 : ℚ)) - 1 ≠ 0 :=
  isPointInPolygon_div_guarded.1 0 1 (-1) (by norm_num [crossingCond])

end Griswold
